import Mathlib

/-!
Verification of the arXiv-metadata normalization notebook
(`src/arxiv_processing.ipynb`).

The notebook transforms a flat sequence of raw bibliographic records into
five relational tables: Submission, Category, Author, Submission-Category
and Submission-Author.  This file shallowly embeds the notebook's data
model and its transformation steps and proves (or refutes) the frozen
specification claims about them.

Conventions of the embedding:

* pandas/Python exceptions are modelled by `Option`-valued functions
  (`none` = the step raises and the whole run aborts, since the notebook
  has no per-record recovery);
* the external `dateutil` parser is an explicit parameter
  `parse : String → Option DateTime` (it is a third-party library, not
  repository code);
* the external name→gender classifier and the gender column it feeds are
  not modelled: no claim mentions them;
* Python string operations (`split(" ")`, `find`, slicing, `startswith`)
  are embedded with their exact Python semantics, including the negative
  index returned by `find` on a missing separator and the clamping rules
  of slices.
-/

/-! ### Python string primitives -/

/-- Python `s.split(sep)` for a one-character separator `sep`, on the
character list of the string: consecutive separators yield empty tokens and
the empty string yields `[[]]`, exactly as in Python. -/
def splitChar (sep : Char) : List Char → List (List Char)
  | [] => [[]]
  | c :: cs =>
    if c = sep then
      [] :: splitChar sep cs
    else
      match splitChar sep cs with
      | [] => [[c]]
      | t :: ts => (c :: t) :: ts

/-- Python `s.split(" ")` on a `String`, as used for the `categories`
field. -/
def pySplitSpace (s : String) : List String :=
  (splitChar ' ' s.toList).map String.mk

/-- Python `s.find(".")`: index of the first `'.'`, `-1` when absent. -/
def pyFindDot (s : String) : Int :=
  match s.toList.findIdx? (fun c => c = '.') with
  | some i => (i : Int)
  | none => -1

/-- Python slice `s[:k]` with Python's clamping rules: a negative `k`
counts from the end (clamped at the start), a too-large `k` is clamped at
the end. -/
def pySliceTo (s : String) (k : Int) : String :=
  String.mk (s.toList.take (if k < 0 then s.toList.length - (-k).toNat else k.toNat))

/-- Python `s[k:]`: drop the first `k` characters. -/
def pyDrop (s : String) (k : Nat) : String :=
  String.mk (s.toList.drop k)

/-- Python `s.startswith(p)`: the first `len(p)` characters of `s` equal
`p`. -/
def pyStartsWith (s p : String) : Bool :=
  s.toList.take p.toList.length = p.toList

/-! ### Data model

One `RawRecord` per input document, with the fields the notebook reads.
`authors_parsed` entries are `(surname, given-name, suffix)` triples;
`versions` entries carry the revision label and the `created` timestamp
string. -/

structure VersionEntry where
  version : String
  created : String
deriving DecidableEq, Repr

abbrev AuthorTriple := String × String × String

structure RawRecord where
  id : String
  submitter : Option String
  title : String
  comments : Option String
  journal_ref : Option String
  categories : String
  abstract : String
  versions : List VersionEntry
  authors_parsed : List AuthorTriple
deriving DecidableEq, Repr

/-- A timestamp as produced by the external date parser: calendar date
plus time-of-day. -/
structure DateTime where
  year : Nat
  month : Nat
  day : Nat
  hour : Nat
  minute : Nat
  second : Nat
deriving DecidableEq, Repr

/-- A calendar date with no time component. -/
structure Date where
  year : Nat
  month : Nat
  day : Nat
deriving DecidableEq, Repr

/-- Python `datetime.date(dt)`: the date component of a timestamp. -/
def DateTime.date (dt : DateTime) : Date :=
  { year := dt.year, month := dt.month, day := dt.day }

/-! ### Record Filter (notebook cell `isMathCategory` / `loadArxivData`) -/

/-- The per-token test of `isMathCategory`: Python
`cat[:cat.find(".")] == "math"`.  Note that for a token with no dot,
`find` returns `-1` and the slice drops the LAST character of the token. -/
def tokenIsMath (cat : String) : Bool :=
  pySliceTo cat (pyFindDot cat) == "math"

/-- The notebook's `isMathCategory`: split the category string on single
spaces and test each token, returning `True` on the first hit. -/
def isMathCategory (categories : String) : Bool :=
  (pySplitSpace categories).any tokenIsMath

/-- The record filter of `loadArxivData` with `catFilter = isMathCategory`:
keep exactly the records whose category string passes. -/
def record_filter (records : List RawRecord) : List RawRecord :=
  records.filter (fun r => isMathCategory r.categories)

/-- Modelled from the spec: a token "whose area prefix equals the target
area" — the token contains a `'.'` and the text before the first `'.'` is
`"math"`.  Used only to compare the spec's predicate with the code's. -/
def specTokenIsMath (t : String) : Bool :=
  t.toList.contains '.' && (String.mk (t.toList.takeWhile (fun c => c ≠ '.')) == "math")

/-! ### Date Normalizer and Submission table (notebook cells 9–11) -/

/-- The notebook's
`lambda x : datetime.date(parser.parse(x[0]['created']))`, with the
external `dateutil` parser passed in as `parse`.  An empty history
(`x[0]` raises `IndexError`) or a parse failure gives `none`. -/
def submission_date (parse : String → Option DateTime) :
    List VersionEntry → Option Date
  | [] => none
  | v :: _ => (parse v.created).map DateTime.date

/-- The notebook's `journal-ref` derivation
`1 - arxiv_math['journal-ref'].isnull().astype('int')`: `0` for a null
field, `1` otherwise. -/
def journal_flag (jr : Option String) : Nat :=
  1 - (if jr.isNone then 1 else 0)

/-- Modelled from the spec: "`has_journal_reference` is `1` iff the source
journal-ref field is non-null/non-empty."  Used only to compare with the
code's derivation. -/
def specHasJournalRef (jr : Option String) : Bool :=
  match jr with
  | none => false
  | some s => s != ""

/-- One row of the Submission table, with the columns the notebook keeps. -/
structure SubmissionRow where
  arxiv_id : String
  submission_date : Date
  title : String
  abstract : String
  journal_ref : Nat
  comments : Option String
deriving DecidableEq, Repr

/-- The Submission table: the column-wise `apply` over all records.  A
pandas `apply` aborts on the first exception, so one failing record makes
the whole computation fail (`none`): there is no per-record recovery in
the notebook. -/
def submission (parse : String → Option DateTime) :
    List RawRecord → Option (List SubmissionRow)
  | [] => some []
  | r :: rs =>
    match submission_date parse r.versions, submission parse rs with
    | some d, some rows =>
      some ({ arxiv_id := r.id, submission_date := d, title := r.title,
              abstract := r.abstract, journal_ref := journal_flag r.journal_ref,
              comments := r.comments } :: rows)
    | _, _ => none

/-! ### Category table (notebook cell 14) -/

/-- The notebook's hand-curated `category_dict` (32 entries), as an
association list `category_id ↦ category_name`. -/
def category_dict : List (String × String) :=
  [("AC", "Commutative Algebra"),
   ("AG", "Algebraic Geometry"),
   ("AP", "Analysis of PDEs"),
   ("AT", "Algebraic Topology"),
   ("CA", "Classicial Analysis and ODES"),
   ("CO", "Combinatorics"),
   ("CT", "Category Theory"),
   ("CV", "Complex Variables"),
   ("DG", "Differential Geometry"),
   ("DS", "Dynamical Systems"),
   ("FA", "Functional Analysis"),
   ("GM", "General Mathematics"),
   ("GN", "General Topology"),
   ("GR", "Group Theory"),
   ("GT", "Geometric Topology"),
   ("HO", "History and Overview"),
   ("IT", "Information Theory"),
   ("KT", "K-Theory and Homology"),
   ("LO", "Logic"),
   ("MG", "Metric Geometry"),
   ("MP", "Mathematical Physics"),
   ("NA", "Numerical Analysis"),
   ("NT", "Number Theory"),
   ("OA", "Operator Algebras"),
   ("OC", "Optimization and Control"),
   ("PR", "Probability"),
   ("QA", "Quantum Algebra"),
   ("RA", "Rings and Algebras"),
   ("RT", "Representation Theory"),
   ("SG", "Symplectic Geometry"),
   ("SP", "Spectral Theory"),
   ("ST", "Statistics Theory")]

/-! ### Submission-Category table (notebook cell 23)

The notebook splits `categories` on spaces, explodes, keeps the rows whose
token satisfies `str.startswith('math')`, and rewrites each kept token to
`x[5:]`.  Exploding then filtering row-wise is the same as filtering and
mapping inside each record, with rows in record order then token order. -/

def submission_category (records : List RawRecord) : List (String × String) :=
  records.flatMap (fun r =>
    ((pySplitSpace r.categories).filter (fun t => pyStartsWith t "math")).map
      (fun t => (r.id, pyDrop t 5)))

/-! ### Author registry (notebook cell 16)

`explode` on an empty list produces a single NaN child (modelled `none`),
on which the `tuple(x[:2])` truncation raises.  The registry is the
deduplicated list of truncated pairs; `author_id` is the row index. -/

/-- Python `tuple(x[:2])` on a `(surname, given-name, suffix)` triple. -/
def truncAuthor (a : AuthorTriple) : String × String :=
  (a.1, a.2.1)

/-- pandas `explode`: each element becomes a child row; an EMPTY list
yields one NaN child (`none`). -/
def explodeOpt {α : Type} : List α → List (Option α)
  | [] => [none]
  | a :: l => (a :: l).map some

/-- The notebook's `names_list`: the exploded author triples of all
records, in order. -/
def names_list (records : List RawRecord) : List (Option AuthorTriple) :=
  records.flatMap (fun r => explodeOpt r.authors_parsed)

/-- Truncate every exploded author to its `(surname, first-name)` pair;
a NaN child (from an empty list) raises, aborting the computation. -/
def truncNames : List (Option AuthorTriple) → Option (List (String × String))
  | [] => some []
  | none :: _ => none
  | some a :: l => (truncNames l).map (fun ns => truncAuthor a :: ns)

/-- The notebook's `unique_names`: the set of truncated pairs, as a
deduplicated list (the enumeration order of a Python set is
implementation-defined; `List.dedup` is one deterministic choice). -/
def unique_names (records : List RawRecord) : Option (List (String × String)) :=
  (truncNames (names_list records)).map List.dedup

/-- The Author table built from the registry: `author_id` is the row
index (`author['author_id'] = author.index`).  The gender column, filled
by the external classifier, is not modelled. -/
def author (reg : List (String × String)) : List (Nat × String × String) :=
  reg.enum.map (fun ip => (ip.1, ip.2.1, ip.2.2))

/-! ### Submission-Author table (notebook cells 20–21) -/

/-- The notebook's `author_dict = dict(zip(unique_names, author_id))`:
look a truncated pair up in the registry, returning its index (`none` is
Python's `KeyError`). -/
def author_dict (reg : List (String × String)) (p : String × String) : Option Nat :=
  match reg with
  | [] => none
  | q :: rest => if q = p then some 0 else (author_dict rest p).map (fun k => k + 1)

/-- The `author_id` the lookup yields when it succeeds. -/
def authorIdOf (reg : List (String × String)) (p : String × String) : Nat :=
  (author_dict reg p).getD 0

/-- Row-wise resolution of the exploded `(id, author)` rows through
`author_dict`: a NaN child or a missing key raises, aborting the whole
`apply`. -/
def saRows (reg : List (String × String)) :
    List (String × Option AuthorTriple) → Option (List (String × Nat))
  | [] => some []
  | (_, none) :: _ => none
  | (aid, some a) :: l =>
    match author_dict reg (truncAuthor a), saRows reg l with
    | some k, some rows => some ((aid, k) :: rows)
    | _, _ => none

/-- The Submission-Author table: explode `(id, authors_parsed)`, then map
each row's author triple through `author_dict ∘ tuple(x[:2])`.  The
registry is the one built by `unique_names` over the same records, as in
the notebook. -/
def submission_author (records : List RawRecord) : Option (List (String × Nat)) :=
  (unique_names records).bind (fun reg =>
    saRows reg (records.flatMap (fun r =>
      (explodeOpt r.authors_parsed).map (fun o => (r.id, o)))))

/-! ### Concrete sample data for witnesses and counterexamples -/

/-- A record with the given id, category string, versions and authors;
the remaining fields are fixed innocuous values. -/
def mkRec (i : String) (cats : String) (vers : List VersionEntry)
    (auths : List AuthorTriple) (jr : Option String) : RawRecord :=
  { id := i, submitter := none, title := "t", comments := none,
    journal_ref := jr, categories := cats, abstract := "a",
    versions := vers, authors_parsed := auths }

/-- A concrete stand-in for the external date parser, defined on one
RFC-2822-style timestamp string. -/
def parse₀ : String → Option DateTime := fun s =>
  if s = "Mon, 2 Apr 2007 18:56:12 GMT" then
    some { year := 2007, month := 4, day := 2, hour := 18, minute := 56, second := 12 }
  else none

def wRec1 : RawRecord :=
  mkRec "704.2" "math.CO cs.DM" [{ version := "v1", created := "Mon, 2 Apr 2007 18:56:12 GMT" }]
    [("Smith", "J.", "")] none

def wRecEmptyHist : RawRecord :=
  mkRec "705.7" "math.CO" [] [("Doe", "A.", "")] none

def cRec9 : RawRecord := mkRec "705.1" "maths" [] [] none

/-! ### Lemmas about the token test of the record filter -/

/-- Characterization of `tokenIsMath`: for a token containing a dot it
compares the text before the first dot with `"math"`; for a token with no
dot, Python's `find` returns `-1` and the slice compares the token MINUS
ITS LAST CHARACTER with `"math"`. -/
lemma tokenIsMath_iff (t : String) : tokenIsMath t = true ↔
    ((∃ i, t.toList.findIdx? (fun c => c = '.') = some i ∧
        String.mk (t.toList.take i) = "math") ∨
     (t.toList.findIdx? (fun c => c = '.') = none ∧
        String.mk (t.toList.take (t.toList.length - 1)) = "math")) := by
  unfold tokenIsMath pyFindDot pySliceTo
  cases h : t.toList.findIdx? (fun c => c = '.') with
  | some i =>
    have hnn : ¬((i : Int) < 0) := by omega
    simp [h, hnn, beq_iff_eq]
  | none =>
    simp [h, beq_iff_eq]

/-- Membership characterization of the Submission-Category table: a row
`(i, c)` is present exactly when some record with id `i` has a category
token starting with the four characters `"math"`, and `c` is that token
with its first five characters removed.  No comparison against
`category_dict` happens anywhere. -/
lemma mem_submission_category (records : List RawRecord) (x : String × String) :
    x ∈ submission_category records ↔
      ∃ r ∈ records, ∃ t ∈ pySplitSpace r.categories,
        pyStartsWith t "math" = true ∧ x = (r.id, pyDrop t 5) := by
  rw [submission_category]
  simp only [List.mem_flatMap, List.mem_map, List.mem_filter]
  constructor
  · rintro ⟨r, hr, t, ⟨ht, hm⟩, rfl⟩
    exact ⟨r, hr, t, ht, hm, rfl⟩
  · rintro ⟨r, hr, t, ht, hm, rfl⟩
    exact ⟨r, hr, t, ⟨ht, hm⟩, rfl⟩

/-- Claim C9 (amended): the record filter returns the subsequence, in
input order, of records having at least one category token `t` for which
either `t` contains a dot and the text before the first dot is `"math"`,
or `t` has no dot and `t` minus its last character is `"math"` (Python's
`cat[:cat.find(".")]` with `find` returning `-1`). -/
theorem spec_C9 (records : List RawRecord) :
    List.Sublist (record_filter records) records ∧
    ∀ r : RawRecord, r ∈ record_filter records ↔
      (r ∈ records ∧ ∃ t ∈ pySplitSpace r.categories,
        ((∃ i, t.toList.findIdx? (fun c => c = '.') = some i ∧
            String.mk (t.toList.take i) = "math") ∨
         (t.toList.findIdx? (fun c => c = '.') = none ∧
            String.mk (t.toList.take (t.toList.length - 1)) = "math"))) := by
  refine ⟨List.filter_sublist _, fun r => ?_⟩
  rw [record_filter, List.mem_filter, isMathCategory, List.any_eq_true]
  simp only [tokenIsMath_iff]

/-- Claim C9, counterexample to the claim as stated: the record whose
category string is the single dotless token `"maths"` is retained by the
filter although no token of it has an area prefix (text before a dot)
equal to `"math"`. -/
theorem spec_C9_counterexample :
    record_filter [cRec9] = [cRec9] ∧
      (pySplitSpace "maths").any specTokenIsMath = false := by decide

/-- Claim C2 (amended): the Submission-Category table has a row `(i, c)`
exactly when some record with id `i` has a whitespace-separated category
token whose FIRST FOUR characters are `"math"` (Python
`str.startswith('math')`), and `c` is the token with its first five
characters removed (Python `x[5:]`). -/
theorem spec_C2 (records : List RawRecord) (x : String × String) :
    x ∈ submission_category records ↔
      ∃ r ∈ records, ∃ t ∈ pySplitSpace r.categories,
        pyStartsWith t "math" = true ∧ x = (r.id, pyDrop t 5) :=
  mem_submission_category records x

/-- Claim C2, counterexample to the claim as stated: the token
`"math-ph"` has no dot, so its area prefix is not `"math"`, yet the code
retains it (`startswith('math')`) and emits the row `("704.1", "ph")`
(`x[5:]` of `"math-ph"`). -/
theorem spec_C2_counterexample :
    submission_category [mkRec "704.1" "math-ph" [] [] none] = [("704.1", "ph")] ∧
      specTokenIsMath "math-ph" = false := by decide

/-- Claim C3 (amended): no check against the static Category enumeration
is performed: a retained token produces its Submission-Category row even
when the stripped code is absent from `category_dict`, and the
computation never aborts. -/
theorem spec_C3 (records : List RawRecord) (r : RawRecord) (t : String)
    (hr : r ∈ records) (ht : t ∈ pySplitSpace r.categories)
    (hm : pyStartsWith t "math" = true)
    (hunknown : (category_dict.map Prod.fst).contains (pyDrop t 5) = false) :
    (r.id, pyDrop t 5) ∈ submission_category records :=
  (mem_submission_category records _).mpr ⟨r, hr, t, ht, hm, rfl⟩

/-- Claim C3, witness: the unknown code `"ZZ"` (from token `"math.ZZ"`)
is emitted into the table even though it is not in `category_dict`. -/
theorem spec_C3_witness :
    ("704.9", "ZZ") ∈ submission_category [mkRec "704.9" "math.ZZ" [] [] none] :=
  spec_C3 [mkRec "704.9" "math.ZZ" [] [] none] (mkRec "704.9" "math.ZZ" [] [] none)
    "math.ZZ" (by decide) (by decide) (by decide) (by decide)

/-- Claim C3, counterexample to the claim as stated: on the token
`"math.ZZ"` the run does not abort; it produces the row `("704.9","ZZ")`
whose `category_id` is absent from the Category enumeration. -/
theorem spec_C3_counterexample :
    submission_category [mkRec "704.9" "math.ZZ" [] [] none] = [("704.9", "ZZ")] ∧
      (category_dict.map Prod.fst).contains "ZZ" = false := by decide

/-- Claim C8 (amended): the derived journal-reference flag is `1` iff the
source field is non-null and `0` iff it is null; an empty string counts
as present and yields `1`. -/
theorem spec_C8 : ∀ jr : Option String,
    (journal_flag jr = 1 ↔ jr.isSome = true) ∧
    (journal_flag jr = 0 ↔ jr.isSome = false) := by
  intro jr
  cases jr <;> simp [journal_flag]

/-- Claim C8, counterexample to the claim as stated: for the empty-string
journal reference the code derives `1`, while the claim (non-null AND
non-empty) demands `0`. -/
theorem spec_C8_counterexample :
    journal_flag (some "") = 1 ∧ specHasJournalRef (some "") = false := by decide

/-- Claim C1: whenever the Submission computation succeeds, each record
with a non-empty revision history contributes a row whose
`submission_date` is the date component (no time) of the parsed `created`
timestamp of the FIRST (index 0) entry of `versions`. -/
theorem spec_C1 (parse : String → Option DateTime) :
    ∀ (records : List RawRecord) (rows : List SubmissionRow),
      submission parse records = some rows →
      ∀ r ∈ records, ∀ (v : VersionEntry) (rest : List VersionEntry),
        r.versions = v :: rest →
        ∃ dt, parse v.created = some dt ∧
          ∃ row ∈ rows, row.arxiv_id = r.id ∧ row.submission_date = dt.date := by
  intro records
  induction records with
  | nil => intro rows _ r hr; simp at hr
  | cons r₀ rs ih =>
    intro rows h r hr v rest hv
    rw [submission] at h
    cases h₁ : submission_date parse r₀.versions with
    | none => rw [h₁] at h; simp at h
    | some d =>
      cases h₂ : submission parse rs with
      | none => rw [h₁, h₂] at h; simp at h
      | some rows₀ =>
        rw [h₁, h₂] at h
        have he := Option.some.inj h
        subst he
        rcases List.mem_cons.mp hr with rfl | hr₂
        · rw [hv, submission_date] at h₁
          rcases Option.map_eq_some'.mp h₁ with ⟨dt, hdt, hd⟩
          refine ⟨dt, hdt, ⟨_, List.mem_cons_self _ _, rfl, ?_⟩⟩
          simp [hd]
        · rcases ih rows₀ h₂ r hr₂ v rest hv with ⟨dt, hdt, row, hrow, ha, hb⟩
          exact ⟨dt, hdt, row, List.mem_cons_of_mem _ hrow, ha, hb⟩

def wRows1 : List SubmissionRow :=
  [{ arxiv_id := "704.2", submission_date := { year := 2007, month := 4, day := 2 },
     title := "t", abstract := "a", journal_ref := 0, comments := none }]

/-- Claim C1, witness: a run over the single record `wRec1` whose first
revision is `"Mon, 2 Apr 2007 18:56:12 GMT"` yields a row dated
2007-04-02 with the time of day discarded. -/
theorem spec_C1_witness :
    ∃ dt, parse₀ "Mon, 2 Apr 2007 18:56:12 GMT" = some dt ∧
      ∃ row ∈ wRows1, row.arxiv_id = "704.2" ∧ row.submission_date = dt.date :=
  spec_C1 parse₀ [wRec1] wRows1 (by decide) wRec1 (by decide)
    { version := "v1", created := "Mon, 2 Apr 2007 18:56:12 GMT" } [] rfl

/-- Claim C4 (amended): the Submission computation fails — producing no
table at all, for ANY record — exactly when some record has an empty
revision history or an unparseable first timestamp; a failing record is
not excluded individually. -/
theorem spec_C4 : ∀ (parse : String → Option DateTime) (records : List RawRecord),
    submission parse records = none ↔
      ∃ r ∈ records, submission_date parse r.versions = none := by
  intro parse records
  induction records with
  | nil => simp [submission]
  | cons r rs ih =>
    rw [submission]
    cases h₁ : submission_date parse r.versions with
    | none =>
      simp only [List.mem_cons]
      constructor
      · intro _; exact ⟨r, Or.inl rfl, h₁⟩
      · intro _; trivial
    | some d =>
      cases h₂ : submission parse rs with
      | none =>
        constructor
        · intro _
          rcases ih.mp h₂ with ⟨r', hr', hn⟩
          exact ⟨r', List.mem_cons_of_mem _ hr', hn⟩
        · intro _; trivial
      | some rows₀ =>
        constructor
        · intro hcontra; simp at hcontra
        · rintro ⟨r', hr', hn⟩
          rcases List.mem_cons.mp hr' with rfl | hr₂
          · rw [h₁] at hn; exact absurd hn (by simp)
          · exact absurd (ih.mpr ⟨r', hr₂, hn⟩) (by simp [h₂])

/-- Claim C4, counterexample to the claim as stated: a record with an
empty revision history does not get excluded on its own — the whole
computation returns nothing, although the same run without that record
succeeds. -/
theorem spec_C4_counterexample :
    submission parse₀ [wRecEmptyHist, wRec1] = none ∧
      submission parse₀ [wRec1] ≠ none := by decide

/-! ### Lemmas about the author registry -/

lemma truncNames_append (l₁ l₂ : List (Option AuthorTriple)) :
    truncNames (l₁ ++ l₂) =
      (truncNames l₁).bind (fun a => (truncNames l₂).map (fun b => a ++ b)) := by
  induction l₁ with
  | nil => cases h : truncNames l₂ <;> simp [truncNames, h]
  | cons o l ih =>
    cases o with
    | none => simp [truncNames]
    | some a =>
      cases h₁ : truncNames l <;> cases h₂ : truncNames l₂ <;>
        simp [truncNames, ih, h₁, h₂]

lemma truncNames_map_some (l : List AuthorTriple) :
    truncNames (l.map some) = some (l.map truncAuthor) := by
  induction l with
  | nil => rfl
  | cons a l ih => simp [truncNames, ih]

lemma truncNames_eq_none_of_mem {l : List (Option AuthorTriple)}
    (h : none ∈ l) : truncNames l = none := by
  induction l with
  | nil => simp at h
  | cons o l ih =>
    cases o with
    | none => rfl
    | some a =>
      rcases List.mem_cons.mp h with hc | hm
      · exact absurd hc (by simp)
      · simp [truncNames, ih hm]

lemma names_list_cons (r : RawRecord) (rs : List RawRecord) :
    names_list (r :: rs) = explodeOpt r.authors_parsed ++ names_list rs := by
  simp [names_list]

/-- When the truncation pass over the exploded author column succeeds,
its result is the concatenation of the truncated per-record lists, and in
particular no record had an empty author list. -/
lemma truncNames_names_list {records : List RawRecord} {ns : List (String × String)}
    (h : truncNames (names_list records) = some ns) :
    ns = records.flatMap (fun r => r.authors_parsed.map truncAuthor) ∧
      ∀ r ∈ records, r.authors_parsed ≠ [] := by
  induction records generalizing ns with
  | nil =>
    refine ⟨?_, by simp⟩
    have h' : (some [] : Option (List (String × String))) = some ns := h
    simpa using h'.symm
  | cons r rs ih =>
    rw [names_list_cons, truncNames_append] at h
    cases hA : r.authors_parsed with
    | nil =>
      rw [hA] at h
      simp [explodeOpt, truncNames] at h
    | cons a as =>
      rw [hA] at h
      rw [show explodeOpt (a :: as) = (a :: as).map some from rfl,
          truncNames_map_some] at h
      cases h₂ : truncNames (names_list rs) with
      | none => rw [h₂] at h; simp at h
      | some ms =>
        rw [h₂] at h
        simp only [Option.some_bind, Option.map_some', Option.some.injEq] at h
        rcases ih h₂ with ⟨hms, hne⟩
        constructor
        · rw [← h, List.flatMap_cons, hA, hms]
        · intro r' hr'
          rcases List.mem_cons.mp hr' with rfl | hm
          · rw [hA]; simp
          · exact hne r' hm

lemma unique_names_some_spec {records : List RawRecord} {reg : List (String × String)}
    (h : unique_names records = some reg) :
    ∃ ns, truncNames (names_list records) = some ns ∧ reg = ns.dedup := by
  rw [unique_names] at h
  cases hn : truncNames (names_list records) with
  | none => rw [hn] at h; simp at h
  | some ns =>
    rw [hn] at h
    simp only [Option.map_some', Option.some.injEq] at h
    exact ⟨ns, rfl, h.symm⟩

/-- The registry contains exactly the truncated pairs observed across the
records' parsed author lists. -/
lemma mem_unique_names {records : List RawRecord} {reg : List (String × String)}
    (h : unique_names records = some reg) (p : String × String) :
    p ∈ reg ↔ ∃ r ∈ records, ∃ a ∈ r.authors_parsed, truncAuthor a = p := by
  rcases unique_names_some_spec h with ⟨ns, hn, rfl⟩
  rw [List.mem_dedup]
  rcases truncNames_names_list hn with ⟨rfl, -⟩
  simp only [List.mem_flatMap, List.mem_map]

lemma author_dict_spec {reg : List (String × String)} {p : String × String}
    (h : p ∈ reg) :
    ∃ k, author_dict reg p = some k ∧ k < reg.length ∧ reg[k]? = some p := by
  induction reg with
  | nil => simp at h
  | cons q rest ih =>
    by_cases hq : q = p
    · exact ⟨0, by simp [author_dict, hq], by simp, by simp [hq]⟩
    · rcases List.mem_cons.mp h with heq | hm
      · exact absurd heq.symm hq
      · rcases ih hm with ⟨k, hk, hlt, hget⟩
        refine ⟨k + 1, ?_, by simpa using Nat.succ_lt_succ hlt, by simpa using hget⟩
        simp [author_dict, hq, hk]

lemma author_dict_eq_of_mem {reg : List (String × String)} {p : String × String}
    (h : p ∈ reg) :
    author_dict reg p = some (authorIdOf reg p) ∧
      authorIdOf reg p < reg.length ∧ reg[authorIdOf reg p]? = some p := by
  rcases author_dict_spec h with ⟨k, hk, hlt, hget⟩
  have hid : authorIdOf reg p = k := by rw [authorIdOf, hk]; rfl
  rw [hid, hk]
  exact ⟨rfl, hlt, hget⟩

lemma mem_author_of_getElem {reg : List (String × String)} {k : Nat}
    {p : String × String} (h : reg[k]? = some p) :
    (k, p.1, p.2) ∈ author reg := by
  rw [author, List.mem_map]
  exact ⟨(k, p), List.mk_mem_enum_iff_getElem?.mpr h, rfl⟩

lemma saRows_append (reg : List (String × String))
    (l₁ l₂ : List (String × Option AuthorTriple)) :
    saRows reg (l₁ ++ l₂) =
      (saRows reg l₁).bind (fun a => (saRows reg l₂).map (fun b => a ++ b)) := by
  induction l₁ with
  | nil => cases h : saRows reg l₂ <;> simp [saRows, h]
  | cons x l ih =>
    rcases x with ⟨aid, o⟩
    cases o with
    | none => simp [saRows]
    | some a =>
      cases hd : author_dict reg (truncAuthor a) <;>
        cases h₁ : saRows reg l <;> cases h₂ : saRows reg l₂ <;>
          simp [saRows, ih, hd, h₁, h₂]

lemma saRows_map_some (reg : List (String × String)) (aid : String)
    (l : List AuthorTriple) (hcov : ∀ a ∈ l, truncAuthor a ∈ reg) :
    saRows reg (l.map (fun a => (aid, some a))) =
      some (l.map (fun a => (aid, authorIdOf reg (truncAuthor a)))) := by
  induction l with
  | nil => rfl
  | cons a l ih =>
    have h₁ := (author_dict_eq_of_mem (hcov a (List.mem_cons_self a l))).1
    simp [saRows, h₁, ih (fun a' ha' => hcov a' (List.mem_cons_of_mem _ ha'))]

lemma saRows_flatMap (reg : List (String × String)) (records : List RawRecord)
    (hcov : ∀ r ∈ records, ∀ a ∈ r.authors_parsed, truncAuthor a ∈ reg)
    (hne : ∀ r ∈ records, r.authors_parsed ≠ []) :
    saRows reg (records.flatMap (fun r =>
        (explodeOpt r.authors_parsed).map (fun o => (r.id, o)))) =
      some (records.flatMap (fun r =>
        r.authors_parsed.map (fun a => (r.id, authorIdOf reg (truncAuthor a))))) := by
  induction records with
  | nil => rfl
  | cons r rs ih =>
    rw [List.flatMap_cons, saRows_append]
    have hA : explodeOpt r.authors_parsed = r.authors_parsed.map some := by
      cases h : r.authors_parsed with
      | nil => exact absurd h (hne r (List.mem_cons_self _ _))
      | cons a as => rfl
    rw [hA, List.map_map]
    rw [show ((fun o => (r.id, o)) ∘ some : AuthorTriple → String × Option AuthorTriple) =
          (fun a => (r.id, some a)) from rfl]
    rw [saRows_map_some reg r.id _ (hcov r (List.mem_cons_self _ _))]
    rw [ih (fun r' hr' => hcov r' (List.mem_cons_of_mem _ hr'))
        (fun r' hr' => hne r' (List.mem_cons_of_mem _ hr'))]
    simp [List.flatMap_cons]

/-- When the registry comes from the same records (as in the notebook),
the Submission-Author computation succeeds and produces, for each record
in order, one row per author-list position in order. -/
lemma submission_author_eq {records : List RawRecord} {reg : List (String × String)}
    (h : unique_names records = some reg) :
    submission_author records =
      some (records.flatMap (fun r =>
        r.authors_parsed.map (fun a => (r.id, authorIdOf reg (truncAuthor a))))) := by
  rcases unique_names_some_spec h with ⟨ns, hn, hreg⟩
  rcases truncNames_names_list hn with ⟨-, hne⟩
  have hcov : ∀ r ∈ records, ∀ a ∈ r.authors_parsed, truncAuthor a ∈ reg := by
    intro r hr a ha
    exact (mem_unique_names h _).mpr ⟨r, hr, a, ha, rfl⟩
  rw [submission_author, h, Option.some_bind]
  exact saRows_flatMap reg records hcov hne

def wRec3 : RawRecord :=
  mkRec "704.3" "math.CO" [] [("Smith", "J.", ""), ("Doe", "A.", "")] none

def wRecs5 : List RawRecord := [wRec1, wRec3]

def wReg : List (String × String) := [("Smith", "J."), ("Doe", "A.")]

def wRecNoAuth : RawRecord := mkRec "706.1" "math.CO" [] [] none

/-- Claim C5: when the registry computation succeeds, the Author table
has no duplicate (surname, first-name) pair, contains exactly the pairs
observed across the records' parsed author lists (suffix discarded), and
its surrogate keys are exactly `0, …, N-1`. -/
theorem spec_C5 (records : List RawRecord) (reg : List (String × String))
    (h : unique_names records = some reg) :
    reg.Nodup ∧
      (∀ p : String × String, p ∈ reg ↔
        ∃ r ∈ records, ∃ a ∈ r.authors_parsed, truncAuthor a = p) ∧
      (author reg).map Prod.fst = List.range reg.length := by
  refine ⟨?_, fun p => mem_unique_names h p, ?_⟩
  · rcases unique_names_some_spec h with ⟨ns, -, rfl⟩
    exact List.nodup_dedup ns
  · rw [author, List.map_map]
    exact List.enum_map_fst reg

/-- Claim C5, witness: two records both listing `("Smith","J.")` (one
also listing `("Doe","A.")`) produce a registry with one row per pair and
keys `0, 1`. -/
theorem spec_C5_witness :
    wReg.Nodup ∧
      (("Smith", "J.") ∈ wReg ↔
        ∃ r ∈ wRecs5, ∃ a ∈ r.authors_parsed, truncAuthor a = ("Smith", "J.")) ∧
      (author wReg).map Prod.fst = List.range wReg.length :=
  ⟨(spec_C5 wRecs5 wReg (by decide)).1,
   (spec_C5 wRecs5 wReg (by decide)).2.1 ("Smith", "J."),
   (spec_C5 wRecs5 wReg (by decide)).2.2⟩

/-- Claim C6: under the registry built from the same records, the
Submission-Author table has exactly one row per author-list position of
each retained record, in record order then list order, carrying the
record id and the surrogate key of the truncated pair at that position
(the key points back at that pair in the registry); rows are not
deduplicated. -/
theorem spec_C6 (records : List RawRecord) (reg : List (String × String))
    (h : unique_names records = some reg) :
    submission_author records =
      some (records.flatMap (fun r =>
        r.authors_parsed.map (fun a => (r.id, authorIdOf reg (truncAuthor a))))) ∧
      ∀ r ∈ records, ∀ a ∈ r.authors_parsed,
        reg[authorIdOf reg (truncAuthor a)]? = some (truncAuthor a) := by
  refine ⟨submission_author_eq h, ?_⟩
  intro r hr a ha
  have hm : truncAuthor a ∈ reg := (mem_unique_names h _).mpr ⟨r, hr, a, ha, rfl⟩
  exact (author_dict_eq_of_mem hm).2.2

/-- Claim C6, witness: the two records listing `("Smith","J.")` yield two
Submission-Author rows with the same `author_id 0`, and the duplicate
pair is never collapsed across positions. -/
theorem spec_C6_witness :
    submission_author wRecs5 =
      some (wRecs5.flatMap (fun r =>
        r.authors_parsed.map (fun a => (r.id, authorIdOf wReg (truncAuthor a))))) ∧
      wReg[authorIdOf wReg ("Smith", "J.")]? = some ("Smith", "J.") :=
  ⟨(spec_C6 wRecs5 wReg (by decide)).1,
   (spec_C6 wRecs5 wReg (by decide)).2 wRec1 (by decide) ("Smith", "J.", "") (by decide)⟩

/-- Claim C7: when the registry was built from the same records, the
Submission-Author computation never hits a missing key (it returns a
table), and every `author_id` it references is the key of some row of the
Author table. -/
theorem spec_C7 (records : List RawRecord) (reg : List (String × String))
    (h : unique_names records = some reg) :
    (∃ rows, submission_author records = some rows) ∧
      ∀ rows, submission_author records = some rows →
        ∀ x ∈ rows, ∃ s f, (x.2, s, f) ∈ author reg := by
  have hmain := submission_author_eq h
  refine ⟨⟨_, hmain⟩, ?_⟩
  intro rows hrows x hx
  rw [hmain] at hrows
  have he := Option.some.inj hrows
  subst he
  rcases List.mem_flatMap.mp hx with ⟨r, hr, hx₂⟩
  rcases List.mem_map.mp hx₂ with ⟨a, ha, rfl⟩
  have hm : truncAuthor a ∈ reg := (mem_unique_names h _).mpr ⟨r, hr, a, ha, rfl⟩
  rcases author_dict_eq_of_mem hm with ⟨-, -, hget⟩
  exact ⟨(truncAuthor a).1, (truncAuthor a).2, mem_author_of_getElem hget⟩

/-- Claim C7, witness: the first Submission-Author row of the two-record
run references `author_id 0`, which is a row of the Author table. -/
theorem spec_C7_witness :
    ∃ s f, ((0 : Nat), s, f) ∈ author wReg :=
  (spec_C7 wRecs5 wReg (by decide)).2
    [("704.2", 0), ("704.3", 0), ("704.3", 1)] (by decide) ("704.2", 0) (by decide)

/-- Claim C10: a retained record with an EMPTY parsed author list makes
both the Author-registry build and the Submission-Author expansion fail
(the exploded empty list yields a null child on which the truncation
raises); neither step skips the record or emits zero rows for it. -/
theorem spec_C10 (records : List RawRecord) (r : RawRecord)
    (hr : r ∈ records) (he : r.authors_parsed = []) :
    unique_names records = none ∧ submission_author records = none := by
  have hnone : (none : Option AuthorTriple) ∈ names_list records := by
    rw [names_list]
    exact List.mem_flatMap.mpr ⟨r, hr, by rw [he]; simp [explodeOpt]⟩
  have h₁ : truncNames (names_list records) = none := truncNames_eq_none_of_mem hnone
  constructor
  · rw [unique_names, h₁]; rfl
  · rw [submission_author, unique_names, h₁]; rfl

/-- Claim C10, witness: one record with no parsed authors makes both
author-processing steps fail. -/
theorem spec_C10_witness :
    unique_names [wRecNoAuth] = none ∧ submission_author [wRecNoAuth] = none :=
  spec_C10 [wRecNoAuth] wRecNoAuth (by decide) rfl
